import Mathlib

/-!
Verification of the `ssds.blobstore` chunked-transfer engine.

The definitions below are a shallow embedding of the Python sources
`src/ssds/blobstore/__init__.py`, `src/ssds/blobstore/local.py` and
`src/ssds/blobstore/s3.py`: byte strings become `List Nat`, machine
integers become `Nat` (Python integers are unbounded, so no wraparound is
modelled), fallible operations return `Except`, and the bounded-concurrency
loops of the S3 part iterator and multipart writer become explicit state
transition functions parameterised by an oracle that picks which in-flight
task completes next (the nondeterminism of `concurrent.futures.as_completed`).
-/

namespace Ssds

/-- `MiB = 1024 ** 2` from `ssds/blobstore/__init__.py`. -/
def MiB : Nat := 1024 ^ 2

/-- `AWS_MIN_CHUNK_SIZE = 64 * MiB`. -/
def AWS_MIN_CHUNK_SIZE : Nat := 64 * MiB

/-- `AWS_MAX_MULTIPART_COUNT = 10000`. -/
def AWS_MAX_MULTIPART_COUNT : Nat := 10000

/-- `math.ceil(a / b)` on nonnegative integers (exact rational reading of the
Python float division used in the source). -/
def ceilDiv (a b : Nat) : Nat := (a + b - 1) / b

/-- `get_s3_multipart_chunk_size` from `ssds/blobstore/__init__.py` lines 99-106:
if the file fits in `AWS_MAX_MULTIPART_COUNT` minimum-size chunks return
`AWS_MIN_CHUNK_SIZE`, otherwise `ceil(filesize / AWS_MAX_MULTIPART_COUNT)`
rounded up to a whole number of MiB via `((raw + MiB - 1) // MiB) * MiB`. -/
def get_s3_multipart_chunk_size (filesize : Nat) : Nat :=
  if filesize ≤ AWS_MAX_MULTIPART_COUNT * AWS_MIN_CHUNK_SIZE then
    AWS_MIN_CHUNK_SIZE
  else
    let raw_part_size := ceilDiv filesize AWS_MAX_MULTIPART_COUNT
    ((raw_part_size + MiB - 1) / MiB) * MiB

lemma ceilDiv_le_iff {a b n : Nat} (hb : 0 < b) : ceilDiv a b ≤ n ↔ a ≤ n * b := by
  unfold ceilDiv
  rw [Nat.div_le_iff_le_mul_add_pred hb, Nat.mul_comm]
  omega

lemma le_mul_ceilDiv (a : Nat) {b : Nat} (hb : 0 < b) : a ≤ ceilDiv a b * b :=
  (ceilDiv_le_iff hb).mp (Nat.le_refl _)

lemma ceilDiv_pos {a b : Nat} (ha : 0 < a) (hb : 0 < b) : 0 < ceilDiv a b := by
  rcases Nat.eq_zero_or_pos (ceilDiv a b) with h | h
  · have := (ceilDiv_le_iff hb).mp (Nat.le_of_eq h)
    omega
  · exact h

lemma chunk_size_pos (s : Nat) : 0 < get_s3_multipart_chunk_size s := by
  unfold get_s3_multipart_chunk_size
  split
  · decide
  · rename_i h
    have hs : 0 < s := by
      have h0 : (0:Nat) < AWS_MAX_MULTIPART_COUNT * AWS_MIN_CHUNK_SIZE := by decide
      omega
    show 0 < ceilDiv (ceilDiv s AWS_MAX_MULTIPART_COUNT) MiB * MiB
    have hraw : 0 < ceilDiv s AWS_MAX_MULTIPART_COUNT := ceilDiv_pos hs (by decide)
    exact Nat.mul_pos (ceilDiv_pos hraw (by decide)) (by decide)

lemma chunk_size_eq_below {s : Nat}
    (h : s ≤ AWS_MAX_MULTIPART_COUNT * AWS_MIN_CHUNK_SIZE) :
    get_s3_multipart_chunk_size s = AWS_MIN_CHUNK_SIZE := by
  unfold get_s3_multipart_chunk_size
  simp [h]

lemma chunk_size_eq_above {s : Nat}
    (h : AWS_MAX_MULTIPART_COUNT * AWS_MIN_CHUNK_SIZE < s) :
    get_s3_multipart_chunk_size s =
      ceilDiv (ceilDiv s AWS_MAX_MULTIPART_COUNT) MiB * MiB := by
  have hne : ¬ s ≤ AWS_MAX_MULTIPART_COUNT * AWS_MIN_CHUNK_SIZE := by omega
  unfold get_s3_multipart_chunk_size
  simp [hne, ceilDiv]

lemma raw_le_chunk_size {s : Nat}
    (h : AWS_MAX_MULTIPART_COUNT * AWS_MIN_CHUNK_SIZE < s) :
    ceilDiv s AWS_MAX_MULTIPART_COUNT ≤ get_s3_multipart_chunk_size s := by
  rw [chunk_size_eq_above h]
  exact le_mul_ceilDiv _ (by decide)

/-- C1. For every `filesize`: at or below the multipart threshold
`AWS_MAX_MULTIPART_COUNT * AWS_MIN_CHUNK_SIZE` the chunk size is exactly
`AWS_MIN_CHUNK_SIZE`; above it, the chunk size is `ceil(filesize / 10000)`
rounded up to the next whole multiple of 1 MiB, characterised as the least
multiple of `MiB` that is `≥ ceil(filesize / 10000)` — in particular it is a
multiple of `MiB`. -/
theorem chunk_size_policy (s : Nat) :
    (s ≤ AWS_MAX_MULTIPART_COUNT * AWS_MIN_CHUNK_SIZE →
      get_s3_multipart_chunk_size s = AWS_MIN_CHUNK_SIZE) ∧
    (AWS_MAX_MULTIPART_COUNT * AWS_MIN_CHUNK_SIZE < s →
      get_s3_multipart_chunk_size s = ceilDiv (ceilDiv s AWS_MAX_MULTIPART_COUNT) MiB * MiB ∧
      MiB ∣ get_s3_multipart_chunk_size s ∧
      ceilDiv s AWS_MAX_MULTIPART_COUNT ≤ get_s3_multipart_chunk_size s ∧
      get_s3_multipart_chunk_size s < ceilDiv s AWS_MAX_MULTIPART_COUNT + MiB) := by
  constructor
  · exact fun h => chunk_size_eq_below h
  · intro h
    have heq := chunk_size_eq_above h
    refine ⟨heq, ?_, raw_le_chunk_size h, ?_⟩
    · exact ⟨ceilDiv (ceilDiv s AWS_MAX_MULTIPART_COUNT) MiB, by rw [heq, Nat.mul_comm]⟩
    · rw [heq, Nat.mul_comm]
      have hMiB : (0:Nat) < MiB := by decide
      set r := ceilDiv s AWS_MAX_MULTIPART_COUNT with hr
      have h1 := Nat.div_add_mod (r + MiB - 1) MiB
      have h2 := Nat.mod_lt (r + MiB - 1) hMiB
      unfold ceilDiv
      omega

/-- Witness for `chunk_size_policy`, at a size below the threshold and a size
one byte above it. -/
theorem chunk_size_policy_witness :
    get_s3_multipart_chunk_size 0 = AWS_MIN_CHUNK_SIZE ∧
    get_s3_multipart_chunk_size (10000 * 67108864 + 1) =
      ceilDiv (ceilDiv (10000 * 67108864 + 1) AWS_MAX_MULTIPART_COUNT) MiB * MiB := by
  refine ⟨(chunk_size_policy 0).1 (by decide), ?_⟩
  exact ((chunk_size_policy (10000 * 67108864 + 1)).2 (by decide)).1

/-- C2. For every `filesize`, the derived part count
`ceil(filesize / get_s3_multipart_chunk_size filesize)` is at most
`AWS_MAX_MULTIPART_COUNT = 10000`; this covers both the threshold branch and
the branch where the chunk is the MiB-rounded `ceil(filesize / 10000)`. -/
theorem part_count_le_max (s : Nat) :
    ceilDiv s (get_s3_multipart_chunk_size s) ≤ AWS_MAX_MULTIPART_COUNT := by
  by_cases h : s ≤ AWS_MAX_MULTIPART_COUNT * AWS_MIN_CHUNK_SIZE
  · rw [chunk_size_eq_below h]
    exact (ceilDiv_le_iff (by decide)).mpr h
  · have h' : AWS_MAX_MULTIPART_COUNT * AWS_MIN_CHUNK_SIZE < s := by omega
    have hge := raw_le_chunk_size h'
    have hchunk : 0 < get_s3_multipart_chunk_size s := chunk_size_pos s
    refine (ceilDiv_le_iff hchunk).mpr ?_
    calc s ≤ ceilDiv s AWS_MAX_MULTIPART_COUNT * AWS_MAX_MULTIPART_COUNT :=
            le_mul_ceilDiv s (by decide)
      _ = AWS_MAX_MULTIPART_COUNT * ceilDiv s AWS_MAX_MULTIPART_COUNT := Nat.mul_comm _ _
      _ ≤ AWS_MAX_MULTIPART_COUNT * get_s3_multipart_chunk_size s :=
            Nat.mul_le_mul_left _ hge

/-! ## Data model: parts and the blobstore error taxonomy -/

/-- `Part = namedtuple("Part", "number data")` from `ssds/blobstore/__init__.py`:
a zero-based part number and the part's bytes (bytes as `List Nat`). -/
structure Part where
  number : Nat
  data : List Nat
deriving DecidableEq, Repr

/-- The exception taxonomy of `ssds/blobstore/__init__.py`: `BlobNotFoundError`
and `BlobStoreUnknownError`, both subclasses of `BlobStoreError`; each carries
its message string. -/
inductive BlobError where
  | blobNotFound (msg : String)
  | blobStoreUnknown (msg : String)
deriving DecidableEq, Repr

/-! ## LocalBlob / LocalAsyncPartIterator (`ssds/blobstore/local.py`)

The filesystem is a partial map from paths to byte contents; an absent path
makes `open`/`os.path.getsize` raise `FileNotFoundError`, which
`catch_blob_not_found` (and the `try/except` in
`LocalAsyncPartIterator.__init__`) convert to `BlobNotFoundError`. -/

/-- A `LocalBlob(basepath, relpath)`: `self.key = relpath`,
`self._path = os.path.join(basepath, relpath)`. -/
structure LocalBlob where
  bucket_name : String
  key : String
deriving DecidableEq, Repr

/-- `os.path.join(basepath, relpath)` for the simple relative-key case. -/
def LocalBlob.path (b : LocalBlob) : String := b.bucket_name ++ "/" ++ b.key

/-- `LocalBlob.get` under the `catch_blob_not_found` decorator: open the file
and read all bytes; a missing file surfaces as
`BlobNotFoundError(f"Could not find {self.key}")`. -/
def LocalBlob.get (b : LocalBlob) (fs : String → Option (List Nat)) :
    Except BlobError (List Nat) :=
  match fs b.path with
  | none => .error (.blobNotFound ("Could not find " ++ b.key))
  | some contents => .ok contents

/-- `LocalBlob.size` under the `catch_blob_not_found` decorator:
`os.path.getsize`, with a missing file surfacing as `BlobNotFoundError`. -/
def LocalBlob.sizeOp (b : LocalBlob) (fs : String → Option (List Nat)) :
    Except BlobError Nat :=
  match fs b.path with
  | none => .error (.blobNotFound ("Could not find " ++ b.key))
  | some contents => .ok contents.length

/-- A fully constructed `LocalAsyncPartIterator`: size, chunk size, part count
and the open file handle (modelled by the file's bytes). -/
structure LocalAsyncPartIterator where
  size : Nat
  chunk_size : Nat
  number_of_parts : Nat
  file : List Nat
deriving DecidableEq, Repr

/-- `LocalAsyncPartIterator.__init__` (local.py lines 52-59): `os.path.getsize`
with `FileNotFoundError` converted to `BlobNotFoundError(f"Could not find {path}")`,
then `chunk_size = get_s3_multipart_chunk_size(size)`,
`_number_of_parts = ceil(size / chunk_size) if 0 < size else 1`, and the handle
is opened last. -/
def LocalAsyncPartIterator.init (fs : String → Option (List Nat)) (path : String) :
    Except BlobError LocalAsyncPartIterator :=
  match fs path with
  | none => .error (.blobNotFound ("Could not find " ++ path))
  | some contents =>
    let size := contents.length
    let chunk_size := get_s3_multipart_chunk_size size
    .ok { size := size
          chunk_size := chunk_size
          number_of_parts := if 0 < size then ceilDiv size chunk_size else 1
          file := contents }

/-- `LocalBlob.parts`: `LocalAsyncPartIterator(self._path)`. -/
def LocalBlob.parts (b : LocalBlob) (fs : String → Option (List Nat)) :
    Except BlobError LocalAsyncPartIterator :=
  LocalAsyncPartIterator.init fs b.path

/-- `LocalAsyncPartIterator._get_part` (local.py lines 68-70): seek to
`part_number * chunk_size` and read `chunk_size` bytes (fewer at end of file). -/
def LocalAsyncPartIterator.getPart (it : LocalAsyncPartIterator) (part_number : Nat) :
    Part :=
  ⟨part_number, (it.file.drop (part_number * it.chunk_size)).take it.chunk_size⟩

/-- `LocalAsyncPartIterator.__iter__` (local.py lines 64-66): yield
`_get_part(part_number)` for `part_number in range(self._number_of_parts)`. -/
def LocalAsyncPartIterator.iter (it : LocalAsyncPartIterator) : List Part :=
  (List.range it.number_of_parts).map it.getPart

/-- The iterator state `LocalAsyncPartIterator.__init__` builds from a file of
`contents` bytes (what `init` returns when the file exists). -/
def localIterOf (contents : List Nat) : LocalAsyncPartIterator :=
  { size := contents.length
    chunk_size := get_s3_multipart_chunk_size contents.length
    number_of_parts :=
      if 0 < contents.length then
        ceilDiv contents.length (get_s3_multipart_chunk_size contents.length)
      else 1
    file := contents }

lemma init_eq_localIterOf (fs : String → Option (List Nat)) (path : String)
    (contents : List Nat) (h : fs path = some contents) :
    LocalAsyncPartIterator.init fs path = .ok (localIterOf contents) := by
  unfold LocalAsyncPartIterator.init localIterOf
  rw [h]

/-! ## C9: missing files surface as `BlobNotFoundError` -/

/-- C9. On the local backend, each file-opening operation (`LocalBlob.get`,
`LocalBlob.size`, and constructing a `LocalAsyncPartIterator` through
`LocalBlob.parts`) reports an absent file as the distinct `BlobNotFoundError`
member of the error taxonomy (never the `BlobStoreUnknownError` member), so
callers can tell not-found apart from other failures. -/
theorem local_not_found_distinct (b : LocalBlob) (fs : String → Option (List Nat))
    (h : fs b.path = none) :
    b.get fs = .error (.blobNotFound ("Could not find " ++ b.key)) ∧
    b.sizeOp fs = .error (.blobNotFound ("Could not find " ++ b.key)) ∧
    b.parts fs = .error (.blobNotFound ("Could not find " ++ b.path)) ∧
    ∀ msg, b.get fs ≠ .error (.blobStoreUnknown msg) ∧
           b.sizeOp fs ≠ .error (.blobStoreUnknown msg) ∧
           b.parts fs ≠ .error (.blobStoreUnknown msg) := by
  unfold LocalBlob.get LocalBlob.sizeOp LocalBlob.parts LocalAsyncPartIterator.init
  rw [h]
  refine ⟨rfl, rfl, rfl, ?_⟩
  intro msg
  refine ⟨?_, ?_, ?_⟩ <;> intro hbad <;> injection hbad with hbad' <;> exact
    BlobError.noConfusion hbad'

/-- Witness for `local_not_found_distinct` on an empty filesystem. -/
theorem local_not_found_distinct_witness :
    (LocalBlob.mk "/base" "k").get (fun _ => none) =
      .error (.blobNotFound ("Could not find " ++ "k")) :=
  (local_not_found_distinct ⟨"/base", "k"⟩ (fun _ => none) rfl).1

/-! ## C10: `LocalAsyncPartIterator.close` is safe on partial objects

`__init__` assigns `self.handle` only as its last statement, after
`os.path.getsize` may already have raised; `__del__` still calls `close()`
on such a partially constructed object. `close` guards the attribute access
with `hasattr(self, "handle")`. Python attribute access on a missing
attribute raises `AttributeError`, and `file.close()` on an already-closed
handle is a documented no-op; both behaviours are modelled explicitly. -/

/-- Runtime attribute state of a `LocalAsyncPartIterator` object: whether the
`handle` attribute has been assigned, and whether that handle is closed. -/
structure LocalIterObject where
  hasHandle : Bool
  handleClosed : Bool
deriving DecidableEq, Repr

/-- Python-level failures that an unguarded attribute access could raise. -/
inductive PyError where
  | attributeError
deriving DecidableEq, Repr

/-- Reading `self.handle`: raises `AttributeError` when the attribute was never
assigned (as for an object whose `__init__` failed at `getsize`). -/
def LocalIterObject.readHandle (o : LocalIterObject) : Except PyError Bool :=
  if o.hasHandle then .ok o.handleClosed else .error .attributeError

/-- `hasattr(self, "handle")`. -/
def LocalIterObject.hasattrHandle (o : LocalIterObject) : Bool := o.hasHandle

/-- `LocalAsyncPartIterator.close` (local.py lines 72-74):
`if hasattr(self, "handle"): self.handle.close()`; closing an already-closed
file handle is a no-op. -/
def LocalIterObject.closeOp (o : LocalIterObject) : Except PyError LocalIterObject :=
  if o.hasattrHandle then
    match o.readHandle with
    | .error e => .error e
    | .ok _ => .ok { o with handleClosed := true }
  else
    .ok o

/-- The object state `__del__` sees when `__init__` raised before assigning
`self.handle` (the file was absent): no handle attribute exists. -/
def partiallyConstructedIter : LocalIterObject :=
  { hasHandle := false, handleClosed := false }

/-- C10. `LocalAsyncPartIterator.close()` never raises: on the partially
constructed object left behind when `__init__` failed before opening the
handle it is a no-op (no `AttributeError`), and on any object a repeated
`close()` succeeds again on the state the first call produced. -/
theorem close_never_raises (o : LocalIterObject) :
    partiallyConstructedIter.closeOp = .ok partiallyConstructedIter ∧
    ∃ o', o.closeOp = .ok o' ∧ o'.closeOp = .ok o' := by
  refine ⟨rfl, ?_⟩
  unfold LocalIterObject.closeOp LocalIterObject.hasattrHandle LocalIterObject.readHandle
  cases h : o.hasHandle <;> simp [h]

/-! ## S3AsyncPartIterator (`ssds/blobstore/s3.py` lines 62-94)

`__init__` computes `_number_of_parts = ceil(size / chunk_size)` with no
special case for `size == 0` (unlike the local iterator). `__iter__` is
embedded as a transition system: `part_numbers` is the list of not yet
submitted parts, `futures` the in-flight window (each future identified by
the part number it fetches), and on each pass of the `while` loop the window
is refilled from the head of `part_numbers` up to `parts_to_buffer`, then
`as_completed` blocks until some in-flight fetch finishes — which one is
chosen by the `oracle` — and that part is yielded and removed. -/

/-- `S3AsyncPartIterator.parts_to_buffer = 2`. -/
def parts_to_buffer : Nat := 2

/-- The part-count arithmetic of `S3AsyncPartIterator.__init__` (s3.py line 69):
`ceil(size / chunk_size)`. -/
def s3NumberOfParts (size : Nat) : Nat :=
  ceilDiv size (get_s3_multipart_chunk_size size)

/-- `S3AsyncPartIterator._get_part` (s3.py lines 90-94): a ranged GET of
`bytes=offset-(offset + chunk_size - 1)` where `offset = part_number * chunk_size`,
i.e. that byte slice of the stored object (clamped at the object's end). -/
def s3GetPart (objectBytes : List Nat) (chunk_size : Nat) (part_number : Nat) : Part :=
  ⟨part_number, (objectBytes.drop (part_number * chunk_size)).take chunk_size⟩

/-- Loop state of `S3AsyncPartIterator.__iter__`. -/
structure S3IterState where
  pending : List Nat
  inflight : List Nat
  yielded : List Nat
deriving DecidableEq, Repr

/-- The window after the refill step of one loop pass: `futures` plus the next
`parts_to_buffer - len(futures)` entries of `part_numbers`. -/
def refillWindow (st : S3IterState) : List Nat :=
  st.inflight ++ st.pending.take (parts_to_buffer - st.inflight.length)

/-- One pass of the `while part_numbers or futures:` loop (s3.py lines 78-88):
refill the window, block on `as_completed`, yield the completed part (the
oracle `o` picks which in-flight fetch finished first) and drop its future. -/
def s3IterStep (o : Nat) (st : S3IterState) : S3IterState :=
  if st.pending.isEmpty && st.inflight.isEmpty then st
  else
    let w := refillWindow st
    let i := o % w.length
    { pending := st.pending.drop (parts_to_buffer - st.inflight.length)
      inflight := w.eraseIdx i
      yielded := st.yielded ++ [w.getD i 0] }

/-- `n` passes of the loop, scheduled by `oracle`. -/
def s3IterRun (oracle : Nat → Nat) : Nat → S3IterState → S3IterState
  | 0, st => st
  | n + 1, st => s3IterRun oracle n (s3IterStep (oracle (n + 1)) st)

/-- The state at loop entry: `part_numbers = [0, ..., number_of_parts - 1]`,
no futures, nothing yielded. -/
def s3InitState (number_of_parts : Nat) : S3IterState :=
  ⟨List.range number_of_parts, [], []⟩

lemma s3IterRun_empty (oracle : Nat → Nat) (n : Nat) (y : List Nat) :
    s3IterRun oracle n ⟨[], [], y⟩ = ⟨[], [], y⟩ := by
  induction n with
  | zero => rfl
  | succ n ih =>
    show s3IterRun oracle n (s3IterStep (oracle (n + 1)) ⟨[], [], y⟩) = _
    have hstep : s3IterStep (oracle (n + 1)) ⟨[], [], y⟩ = ⟨[], [], y⟩ := rfl
    rw [hstep, ih]

/-- C3 counterexample: at size 0 the S3 part iterator's part count is
`ceil(0 / chunk_size) = 0`, not 1, and one pass of its loop yields nothing —
refuting the claim that BOTH backends produce part count 1 and one empty part. -/
theorem s3_size_zero_counterexample :
    s3NumberOfParts 0 = 0 ∧ s3NumberOfParts 0 ≠ 1 ∧
    (s3IterRun (fun _ => 0) 1 (s3InitState (s3NumberOfParts 0))).yielded = [] := by
  refine ⟨by decide, by decide, ?_⟩
  have h0 : s3NumberOfParts 0 = 0 := by decide
  rw [h0]
  show (s3IterRun (fun _ => 0) 1 ⟨[], [], []⟩).yielded = []
  rw [s3IterRun_empty]

/-- C3 (amended). For an object of size 0, `LocalAsyncPartIterator` has part
count 1 and its iteration yields exactly one `Part`, numbered 0, with empty
data; `S3AsyncPartIterator`, which lacks the local backend's `size == 0`
special case, instead has part count `ceil(0 / chunk_size) = 0` and its
iteration yields no parts, under every completion schedule and any number of
loop passes. -/
theorem size_zero_parts (fs : String → Option (List Nat)) (path : String)
    (h : fs path = some []) :
    LocalAsyncPartIterator.init fs path = .ok (localIterOf []) ∧
    (localIterOf []).number_of_parts = 1 ∧
    (localIterOf []).iter = [⟨0, []⟩] ∧
    s3NumberOfParts 0 = 0 ∧
    ∀ oracle n, (s3IterRun oracle n (s3InitState (s3NumberOfParts 0))).yielded = [] := by
  refine ⟨init_eq_localIterOf fs path [] h, by decide, by decide, by decide, ?_⟩
  intro oracle n
  have h0 : s3NumberOfParts 0 = 0 := by decide
  rw [h0]
  show (s3IterRun oracle n ⟨[], [], []⟩).yielded = []
  rw [s3IterRun_empty]

/-- Witness for `size_zero_parts` on a filesystem holding one empty file. -/
theorem size_zero_parts_witness :
    LocalAsyncPartIterator.init (fun _ => some []) "f" = .ok (localIterOf []) ∧
    (localIterOf []).iter = [⟨0, []⟩] :=
  ⟨(size_zero_parts (fun _ => some []) "f" rfl).1,
   (size_zero_parts (fun _ => some []) "f" rfl).2.2.1⟩

lemma refillWindow_length_le (st : S3IterState)
    (h : st.inflight.length ≤ parts_to_buffer) :
    (refillWindow st).length ≤ parts_to_buffer := by
  unfold refillWindow parts_to_buffer at *
  rw [List.length_append, List.length_take]
  omega

lemma step_inflight_le (o : Nat) (st : S3IterState)
    (h : st.inflight.length ≤ parts_to_buffer) :
    (s3IterStep o st).inflight.length ≤ parts_to_buffer := by
  unfold s3IterStep
  split
  · exact h
  · show ((refillWindow st).eraseIdx (o % (refillWindow st).length)).length ≤ parts_to_buffer
    exact le_trans (List.length_eraseIdx_le _ _) (refillWindow_length_le st h)

lemma run_inflight_le (oracle : Nat → Nat) (n : Nat) (st : S3IterState)
    (h : st.inflight.length ≤ parts_to_buffer) :
    (s3IterRun oracle n st).inflight.length ≤ parts_to_buffer := by
  induction n generalizing st with
  | zero => exact h
  | succ n ih => exact ih _ (step_inflight_le _ _ h)

lemma refillWindow_pos (st : S3IterState)
    (h : ¬(st.pending.isEmpty && st.inflight.isEmpty) = true) :
    0 < (refillWindow st).length := by
  unfold refillWindow parts_to_buffer
  rw [List.length_append, List.length_take]
  rcases st with ⟨p, f, y⟩
  simp only [Bool.and_eq_true, List.isEmpty_iff, not_and] at h
  rcases p with _ | ⟨a, p⟩ <;> rcases f with _ | ⟨b, f⟩ <;> simp_all

/-- The conserved per-part-number count: occurrences of `x` among pending,
in-flight and yielded part numbers. -/
def stCount (x : Nat) (st : S3IterState) : Nat :=
  st.pending.count x + st.inflight.count x + st.yielded.count x

lemma perm_refillWindow_cons (st : S3IterState)
    (h : ¬(st.pending.isEmpty && st.inflight.isEmpty) = true) (o : Nat) :
    (refillWindow st).Perm
      ((refillWindow st).getD (o % (refillWindow st).length) 0 ::
        (refillWindow st).eraseIdx (o % (refillWindow st).length)) := by
  have hlen : o % (refillWindow st).length < (refillWindow st).length :=
    Nat.mod_lt _ (refillWindow_pos st h)
  have hg : (refillWindow st).getD (o % (refillWindow st).length) 0 =
      (refillWindow st).get ⟨_, hlen⟩ := by
    rw [List.getD_eq_getElem?_getD, List.getElem?_eq_getElem hlen]
    rfl
  rw [hg]
  exact (List.perm_cons_erase (List.get_mem _ _ hlen)).trans
    ((List.erase_getElem hlen).cons _)

lemma step_count (o : Nat) (st : S3IterState) (x : Nat) :
    stCount x (s3IterStep o st) = stCount x st := by
  unfold s3IterStep
  split
  · rfl
  · rename_i h
    show (st.pending.drop (parts_to_buffer - st.inflight.length)).count x +
        ((refillWindow st).eraseIdx (o % (refillWindow st).length)).count x +
        (st.yielded ++ [(refillWindow st).getD (o % (refillWindow st).length) 0]).count x =
        stCount x st
    have hperm := perm_refillWindow_cons st h o
    have hcw := hperm.count_eq x
    rw [List.count_cons] at hcw
    have hwdef : (refillWindow st).count x =
        st.inflight.count x +
          (st.pending.take (parts_to_buffer - st.inflight.length)).count x := by
      unfold refillWindow
      rw [List.count_append]
    have hpend : st.pending.count x =
        (st.pending.take (parts_to_buffer - st.inflight.length)).count x +
          (st.pending.drop (parts_to_buffer - st.inflight.length)).count x := by
      conv =>
        lhs
        rw [← List.take_append_drop (parts_to_buffer - st.inflight.length) st.pending]
      rw [List.count_append]
    unfold stCount
    rw [List.count_append, List.count_cons]
    simp only [List.count_nil, List.count_cons] at *
    omega

lemma run_count (oracle : Nat → Nat) (n : Nat) (st : S3IterState) (x : Nat) :
    stCount x (s3IterRun oracle n st) = stCount x st := by
  induction n generalizing st with
  | zero => rfl
  | succ n ih =>
    show stCount x (s3IterRun oracle n (s3IterStep (oracle (n + 1)) st)) = _
    rw [ih, step_count]

lemma step_measure (o : Nat) (st : S3IterState)
    (h : ¬(st.pending.isEmpty && st.inflight.isEmpty) = true) :
    (s3IterStep o st).pending.length + (s3IterStep o st).inflight.length + 1 =
      st.pending.length + st.inflight.length := by
  have hlen : o % (refillWindow st).length < (refillWindow st).length :=
    Nat.mod_lt _ (refillWindow_pos st h)
  have htot : 0 < st.pending.length + st.inflight.length := by
    rcases st with ⟨p, f, y⟩
    simp only [Bool.and_eq_true, List.isEmpty_iff, not_and] at h
    rcases p with _ | ⟨a, p⟩ <;> rcases f with _ | ⟨b, f⟩ <;> simp_all
  unfold s3IterStep
  rw [if_neg h]
  show (st.pending.drop (parts_to_buffer - st.inflight.length)).length +
      ((refillWindow st).eraseIdx (o % (refillWindow st).length)).length + 1 = _
  rw [List.length_drop, List.length_eraseIdx_of_lt hlen]
  unfold refillWindow parts_to_buffer at *
  rw [List.length_append, List.length_take] at *
  omega

lemma run_drain (oracle : Nat → Nat) (n : Nat) (st : S3IterState)
    (h : st.pending.length + st.inflight.length ≤ n) :
    (s3IterRun oracle n st).pending = [] ∧ (s3IterRun oracle n st).inflight = [] := by
  induction n generalizing st with
  | zero =>
    have hp : st.pending.length = 0 := by omega
    have hf : st.inflight.length = 0 := by omega
    exact ⟨List.length_eq_zero.mp hp, List.length_eq_zero.mp hf⟩
  | succ n ih =>
    show (s3IterRun oracle n (s3IterStep (oracle (n + 1)) st)).pending = [] ∧
      (s3IterRun oracle n (s3IterStep (oracle (n + 1)) st)).inflight = []
    by_cases hb : (st.pending.isEmpty && st.inflight.isEmpty) = true
    · have hstep : s3IterStep (oracle (n + 1)) st = st := by
        unfold s3IterStep
        rw [if_pos hb]
      rw [hstep]
      refine ih st ?_
      simp only [Bool.and_eq_true, List.isEmpty_iff] at hb
      rw [hb.1, hb.2]
      simp
    · have hm := step_measure (oracle (n + 1)) st hb
      exact ih _ (by omega)

/-- C5. For every object with `part_count ≥ 2` and every completion schedule
of the fetch tasks: at each pass of the `S3AsyncPartIterator.__iter__` loop
the in-flight window holds at most `parts_to_buffer = 2` fetch tasks (both
after the yield and at its refilled peak while blocked on `as_completed`),
and after `part_count` passes the loop has terminated (no pending or
in-flight parts remain) having yielded each part number in
`[0, part_count)` exactly once, in some completion order. -/
theorem s3_iter_window_coverage (pc : Nat) (_hpc : 2 ≤ pc) (oracle : Nat → Nat) :
    (∀ n, (s3IterRun oracle n (s3InitState pc)).inflight.length ≤ parts_to_buffer ∧
          (refillWindow (s3IterRun oracle n (s3InitState pc))).length ≤ parts_to_buffer) ∧
    (s3IterRun oracle pc (s3InitState pc)).pending = [] ∧
    (s3IterRun oracle pc (s3InitState pc)).inflight = [] ∧
    (s3IterRun oracle pc (s3InitState pc)).yielded.Perm (List.range pc) := by
  have hinit : (s3InitState pc).inflight.length ≤ parts_to_buffer := by
    show (List.length []) ≤ parts_to_buffer
    decide
  have hdrain := run_drain oracle pc (s3InitState pc) (by
    show (List.range pc).length + (List.length []) ≤ pc
    rw [List.length_range]
    simp)
  refine ⟨fun n => ?_, hdrain.1, hdrain.2, ?_⟩
  · have h1 := run_inflight_le oracle n (s3InitState pc) hinit
    exact ⟨h1, refillWindow_length_le _ h1⟩
  · rw [List.perm_iff_count]
    intro x
    have hc := run_count oracle pc (s3InitState pc) x
    have hinitc : stCount x (s3InitState pc) = List.count x (List.range pc) := by
      show List.count x (List.range pc) + List.count x [] + List.count x [] = _
      simp
    rw [hinitc] at hc
    unfold stCount at hc
    rw [hdrain.1, hdrain.2] at hc
    simp only [List.count_nil, Nat.zero_add] at hc
    omega

/-- Witness for `s3_iter_window_coverage`: a 3-part object scheduled by the
constant oracle yields exactly the part numbers 0, 1, 2. -/
theorem s3_iter_window_coverage_witness :
    (s3IterRun (fun _ => 0) 3 (s3InitState 3)).yielded.Perm (List.range 3) :=
  (s3_iter_window_coverage 3 (by decide) (fun _ => 0)).2.2.2

/-! ## C4: round-trip of the part slices -/

/-- Re-sorting a yielded part list by `Part.number` (ascending, stable —
Python's `sort(key=...)`). -/
def sortByPartNumber (l : List Part) : List Part :=
  l.mergeSort (fun a b => a.number ≤ b.number)

/-- The reflexive closure of the strict part-number order; antisymmetric, so
sorted lists are unique up to permutation. -/
def partNumberLE (a b : Part) : Prop := a.number < b.number ∨ a = b

instance : IsAntisymm Part partNumberLE where
  antisymm a b h1 h2 := by
    rcases h1 with h1 | h1
    · rcases h2 with h2 | h2
      · omega
      · exact h2.symm
    · exact h1

lemma sortByPartNumber_perm (l : List Part) : (sortByPartNumber l).Perm l :=
  List.mergeSort_perm l _

lemma sortByPartNumber_pairwise_le (l : List Part) :
    (sortByPartNumber l).Pairwise (fun a b : Part => a.number ≤ b.number) := by
  have h : (sortByPartNumber l).Pairwise
      (fun a b : Part => (decide (a.number ≤ b.number)) = true) := by
    apply List.sorted_mergeSort
    · intro a b c hab hbc
      simp only [decide_eq_true_eq] at *
      omega
    · intro a b
      simp only [Bool.or_eq_true, decide_eq_true_eq]
      omega
  exact h.imp (by intro a b hab; simpa using hab)

lemma sorted_nodup_eq {l₁ l₂ : List Part}
    (hp : l₁.Perm l₂)
    (hs₁ : l₁.Pairwise (fun a b : Part => a.number ≤ b.number))
    (hs₂ : l₂.Pairwise (fun a b : Part => a.number < b.number)) :
    l₁ = l₂ := by
  have hnd₂ : l₂.Pairwise (fun a b : Part => a.number ≠ b.number) :=
    hs₂.imp (fun h => Nat.ne_of_lt h)
  have hnd₁ : l₁.Pairwise (fun a b : Part => a.number ≠ b.number) :=
    (List.Perm.pairwise_iff (fun h => Ne.symm h) hp).mpr hnd₂
  refine @List.eq_of_perm_of_sorted Part partNumberLE _ _ _ hp ?_ ?_
  · exact (hs₁.and hnd₁).imp (fun h => Or.inl (Nat.lt_of_le_of_ne h.1 h.2))
  · exact hs₂.imp (fun h => Or.inl h)

lemma flatten_chunks (chunk : Nat) (_hc : 0 < chunk) :
    ∀ (pc : Nat) (file : List Nat), file.length ≤ pc * chunk →
      ((List.range pc).map (fun n => (file.drop (n * chunk)).take chunk)).flatten
        = file := by
  intro pc
  induction pc with
  | zero =>
    intro file h
    simp only [Nat.zero_mul, Nat.le_zero] at h
    rw [List.length_eq_zero.mp h]
    rfl
  | succ pc ih =>
    intro file h
    rw [List.range_succ_eq_map, List.map_cons, List.map_map, List.flatten_cons]
    have hmap : (List.range pc).map
        ((fun n => (file.drop (n * chunk)).take chunk) ∘ Nat.succ) =
        (List.range pc).map
          (fun n => ((file.drop chunk).drop (n * chunk)).take chunk) := by
      refine List.map_congr_left (fun n _ => ?_)
      show (file.drop (Nat.succ n * chunk)).take chunk = _
      rw [List.drop_drop, Nat.succ_mul, Nat.add_comm]
    rw [hmap]
    have hlen : (file.drop chunk).length ≤ pc * chunk := by
      rw [List.length_drop]
      rw [Nat.succ_mul] at h
      omega
    rw [ih (file.drop chunk) hlen]
    show (file.drop (0 * chunk)).take chunk ++ file.drop chunk = file
    rw [Nat.zero_mul, List.drop_zero, List.take_append_drop]

lemma iter_pairwise_lt (it : LocalAsyncPartIterator) :
    it.iter.Pairwise (fun a b : Part => a.number < b.number) := by
  unfold LocalAsyncPartIterator.iter
  rw [List.pairwise_map]
  exact List.pairwise_lt_range _

/-- C4. Round-trip: over a file of `S ≥ 1` bytes, re-sorting any
completion-order permutation of the yielded parts by `Part.number` recovers
exactly the part-number-ordered list the local iterator produces, whose data
concatenates back to the original `S` bytes; every part except the last
holds exactly `chunk_size` bytes, the last holds
`S - (part_count - 1) * chunk_size` bytes, and the S3 iterator's ranged
`_get_part` produces the identical `Part` for each part number. -/
theorem parts_round_trip (file : List Nat) (h : 1 ≤ file.length)
    (l : List Part) (hl : l.Perm (localIterOf file).iter) :
    sortByPartNumber l = (localIterOf file).iter ∧
    (((sortByPartNumber l).map Part.data).flatten = file ∧
      ((localIterOf file).iter.map Part.data).flatten = file) ∧
    (∀ p ∈ (localIterOf file).iter,
      (p.number + 1 < (localIterOf file).number_of_parts →
        p.data.length = (localIterOf file).chunk_size) ∧
      (p.number + 1 = (localIterOf file).number_of_parts →
        p.data.length =
          file.length -
            ((localIterOf file).number_of_parts - 1) * (localIterOf file).chunk_size)) ∧
    (∀ n, s3GetPart file (localIterOf file).chunk_size n =
      (localIterOf file).getPart n) := by
  have hchunk : 0 < get_s3_multipart_chunk_size file.length :=
    chunk_size_pos file.length
  have hpc : (localIterOf file).number_of_parts =
      ceilDiv file.length (get_s3_multipart_chunk_size file.length) := by
    show (if 0 < file.length then _ else _) = _
    rw [if_pos (by omega)]
  have hcover : file.length ≤
      (localIterOf file).number_of_parts * get_s3_multipart_chunk_size file.length := by
    rw [hpc]
    exact le_mul_ceilDiv file.length hchunk
  have hsort : sortByPartNumber l = (localIterOf file).iter :=
    sorted_nodup_eq ((sortByPartNumber_perm l).trans hl)
      (sortByPartNumber_pairwise_le l) (iter_pairwise_lt _)
  have hflat : ((localIterOf file).iter.map Part.data).flatten = file := by
    unfold LocalAsyncPartIterator.iter
    rw [List.map_map]
    have : (Part.data ∘ (localIterOf file).getPart) =
        fun n => (file.drop (n * get_s3_multipart_chunk_size file.length)).take
          (get_s3_multipart_chunk_size file.length) := rfl
    rw [this]
    exact flatten_chunks _ hchunk _ _ hcover
  refine ⟨hsort, ⟨by rw [hsort]; exact hflat, hflat⟩, ?_, fun n => rfl⟩
  intro p hp
  unfold LocalAsyncPartIterator.iter at hp
  rw [List.mem_map] at hp
  obtain ⟨n, hn, hpn⟩ := hp
  rw [List.mem_range] at hn
  subst hpn
  have hdata : ((localIterOf file).getPart n).data.length =
      min (get_s3_multipart_chunk_size file.length)
        (file.length - n * get_s3_multipart_chunk_size file.length) := by
    show ((file.drop (n * get_s3_multipart_chunk_size file.length)).take
      (get_s3_multipart_chunk_size file.length)).length = _
    rw [List.length_take, List.length_drop]
  constructor
  · intro hlt
    show ((localIterOf file).getPart n).data.length = get_s3_multipart_chunk_size file.length
    rw [hdata]
    have hnum : ((localIterOf file).getPart n).number = n := rfl
    rw [hnum] at hlt
    rw [hpc] at hlt
    have hnotle : ¬ ceilDiv file.length (get_s3_multipart_chunk_size file.length) ≤ n + 1 := by
      omega
    have hgt : ¬ file.length ≤ (n + 1) * get_s3_multipart_chunk_size file.length := by
      intro hle
      exact hnotle ((ceilDiv_le_iff hchunk).mpr hle)
    rw [Nat.succ_mul] at hgt
    omega
  · intro hlast
    show ((localIterOf file).getPart n).data.length =
      file.length - ((localIterOf file).number_of_parts - 1) *
        get_s3_multipart_chunk_size file.length
    have hnum : ((localIterOf file).getPart n).number = n := rfl
    rw [hnum] at hlast
    rw [hdata, ← hlast]
    simp only [Nat.add_sub_cancel]
    rw [hpc] at hlast
    have hcov' : file.length ≤ (n + 1) * get_s3_multipart_chunk_size file.length := by
      rw [hpc, ← hlast] at hcover
      exact hcover
    rw [Nat.succ_mul] at hcov'
    omega

/-- Witness for `parts_round_trip` on a two-byte file with the identity
yield order. -/
theorem parts_round_trip_witness :
    sortByPartNumber ((localIterOf [7, 8]).iter) = (localIterOf [7, 8]).iter ∧
    (((localIterOf [7, 8]).iter).map Part.data).flatten = [7, 8] := by
  have h := parts_round_trip [7, 8] (by decide) ((localIterOf [7, 8]).iter)
    (List.Perm.refl _)
  exact ⟨h.1, h.2.1.2⟩

/-! ## S3MultipartWriter (`ssds/blobstore/s3.py` lines 96-156)

`put_part` on the executor path keeps a set `self._futures` of outstanding
upload tasks; when `concurrent_uploads <= len(self._futures)` it first blocks
on `as_completed` until at least one task has finished, then `_collect_parts`
moves every finished task's receipt into `self.parts`, and only then is the
new part's upload submitted. Each outstanding future is modelled by the
`Part` it uploads; which futures are finished the moment `_collect_parts`
runs is a Boolean mask (one entry per outstanding future), and the blocking
wait is reflected as the side condition that a full window's mask marks at
least one future done. The ETag the store returns per upload is opaque,
supplied by the oracle `etagOf`. -/

/-- `S3MultipartWriter.concurrent_uploads = 4`. -/
def concurrent_uploads : Nat := 4

/-- A receipt `dict(ETag=resp['ETag'], PartNumber=aws_part_number)`. -/
structure PartReceipt where
  ETag : Nat
  PartNumber : Nat
deriving DecidableEq, Repr

/-- `S3MultipartWriter._put_part` (s3.py lines 108-117): upload the part's
bytes as wire part number `part.number + 1` and return the receipt dict. -/
def s3PutPart (etagOf : Part → Nat) (p : Part) : PartReceipt :=
  ⟨etagOf p, p.number + 1⟩

/-- Coordinator state of an `S3MultipartWriter`: collected receipts
`self.parts`, outstanding futures `self._futures`, and `self._closed`. -/
structure S3MultipartWriterState where
  parts : List PartReceipt
  futures : List Part
  closed : Bool
deriving DecidableEq, Repr

/-- The state `S3MultipartWriter.__init__` builds: no receipts, no futures,
not closed. -/
def s3WriterInit : S3MultipartWriterState := ⟨[], [], false⟩

/-- `S3MultipartWriter._collect_parts` (s3.py lines 139-144): move the receipt
of every finished outstanding future into `self.parts`. -/
def collectParts (etagOf : Part → Nat) (st : S3MultipartWriterState)
    (doneMask : List Bool) : S3MultipartWriterState :=
  { st with
    parts := st.parts ++
      ((st.futures.zip doneMask).filter (fun q => q.2)).map
        (fun q => s3PutPart etagOf q.1)
    futures := ((st.futures.zip doneMask).filter (fun q => !q.2)).map
      (fun q => q.1) }

/-- `S3MultipartWriter.put_part` (s3.py lines 119-128) on the executor path:
wait while at the concurrency limit, `_collect_parts`, then submit the new
part's upload. -/
def putPart (etagOf : Part → Nat) (st : S3MultipartWriterState)
    (doneMask : List Bool) (p : Part) : S3MultipartWriterState :=
  let st' := collectParts etagOf st doneMask
  { st' with futures := st'.futures ++ [p] }

/-- Writer states reachable from a fresh writer through `put_part` calls. A
step's mask covers exactly the outstanding futures, and when the concurrency
limit is reached the blocking `for _ in as_completed(self._futures): break`
guarantees at least one future is done before `_collect_parts` runs. -/
inductive PutPartReachable (etagOf : Part → Nat) : S3MultipartWriterState → Prop
  | init : PutPartReachable etagOf s3WriterInit
  | step (st : S3MultipartWriterState) (doneMask : List Bool) (p : Part) :
      PutPartReachable etagOf st →
      doneMask.length = st.futures.length →
      (concurrent_uploads ≤ st.futures.length → doneMask.any (fun b => b)) →
      PutPartReachable etagOf (putPart etagOf st doneMask p)

lemma length_filter_not_add (p : α → Bool) (l : List α) :
    (l.filter (fun a => !p a)).length + (l.filter p).length = l.length := by
  induction l with
  | nil => rfl
  | cons a l ih =>
    cases h : p a <;> simp [List.filter_cons, h] <;> omega

lemma zip_filter_done_pos :
    ∀ (fs : List Part) (mask : List Bool), mask.length = fs.length →
      mask.any (fun b => b) = true →
      0 < ((fs.zip mask).filter (fun q => q.2)).length := by
  intro fs
  induction fs with
  | nil =>
    intro mask hlen hany
    rw [List.length_nil, List.length_eq_zero] at hlen
    rw [hlen] at hany
    simp at hany
  | cons f fs ih =>
    intro mask hlen hany
    cases mask with
    | nil => simp at hlen
    | cons b mask =>
      cases b
      · have hany' : mask.any (fun b => b) = true := by simpa using hany
        have := ih mask (by simpa using hlen) hany'
        simpa [List.zip_cons_cons, List.filter_cons] using this
      · simp [List.zip_cons_cons, List.filter_cons]

lemma putPart_futures_le (etagOf : Part → Nat) (st : S3MultipartWriterState)
    (doneMask : List Bool) (p : Part)
    (hb : st.futures.length ≤ concurrent_uploads)
    (hlen : doneMask.length = st.futures.length)
    (hwait : concurrent_uploads ≤ st.futures.length → doneMask.any (fun b => b)) :
    (putPart etagOf st doneMask p).futures.length ≤ concurrent_uploads := by
  show ((((st.futures.zip doneMask).filter (fun q => !q.2)).map (fun q => q.1)
    ++ [p]).length) ≤ concurrent_uploads
  rw [List.length_append, List.length_map]
  have hzlen : (st.futures.zip doneMask).length = st.futures.length := by
    rw [List.length_zip, hlen, Nat.min_self]
  have hsplit := length_filter_not_add (fun q => q.2) (st.futures.zip doneMask)
  by_cases hK : concurrent_uploads ≤ st.futures.length
  · have hpos := zip_filter_done_pos st.futures doneMask hlen (hwait hK)
    unfold concurrent_uploads at *
    simp only [List.length_cons, List.length_nil]
    omega
  · unfold concurrent_uploads at *
    simp only [List.length_cons, List.length_nil]
    omega

/-- C6. Backpressure bound: every writer state reachable through any sequence
of executor-path `put_part` calls holds at most `concurrent_uploads = 4`
outstanding upload tasks, and one further `put_part` — which, when the limit
is reached, blocks until at least one outstanding task has completed and
collects it before submitting — again leaves at most 4 outstanding tasks. -/
theorem put_part_bounded (etagOf : Part → Nat) (st : S3MultipartWriterState)
    (h : PutPartReachable etagOf st) :
    st.futures.length ≤ concurrent_uploads ∧
    ∀ doneMask p, doneMask.length = st.futures.length →
      (concurrent_uploads ≤ st.futures.length → doneMask.any (fun b => b)) →
      (putPart etagOf st doneMask p).futures.length ≤ concurrent_uploads := by
  have hb : st.futures.length ≤ concurrent_uploads := by
    induction h with
    | init => decide
    | step st doneMask p hreach hlen hwait ih =>
      exact putPart_futures_le etagOf st doneMask p ih hlen hwait
  exact ⟨hb, fun doneMask p hlen hwait =>
    putPart_futures_le etagOf st doneMask p hb hlen hwait⟩

/-- Witness for `put_part_bounded` at the freshly constructed writer. -/
theorem put_part_bounded_witness :
    s3WriterInit.futures.length ≤ concurrent_uploads :=
  (put_part_bounded (fun _ => 0) s3WriterInit PutPartReachable.init).1

/-! ## `S3MultipartWriter.close` (`ssds/blobstore/s3.py` lines 130-156) -/

/-- The final outcome of one outstanding upload task: the receipt `_put_part`
returned, or the exception it raised (opaque, by identity). -/
inductive UploadOutcome where
  | done (r : PartReceipt)
  | failed (e : Nat)
deriving DecidableEq, Repr

/-- `S3MultipartWriter._wait` (s3.py lines 130-137): walk the outstanding
futures in completion order calling `f.result()`, which re-raises the first
failure encountered. -/
def s3Wait : List UploadOutcome → Except Nat Unit
  | [] => .ok ()
  | .done _ :: rest => s3Wait rest
  | .failed e :: _ => .error e

/-- The receipts of the successfully finished futures, in completion order
(what `_collect_parts` appends after a successful `_wait`). -/
def okReceipts (outcomes : List UploadOutcome) : List PartReceipt :=
  outcomes.filterMap (fun o => match o with | .done r => some r | .failed _ => none)

/-- `self.parts.sort(key=lambda item: item['PartNumber'])` — Python's stable
ascending sort, modelled by stable `mergeSort`. -/
def sortReceipts (ps : List PartReceipt) : List PartReceipt :=
  ps.mergeSort (fun a b => a.PartNumber ≤ b.PartNumber)

/-- `S3MultipartWriter.close` (s3.py lines 146-156), over the outcomes of the
outstanding futures listed in completion order: a second call is a no-op
(`.ok none`, no finalize call); otherwise `_wait` re-raises the first upload
failure (`.error e`, and `complete_multipart_upload` is never reached);
otherwise `_collect_parts` appends every remaining receipt, the receipt list
is sorted by `PartNumber`, and `complete_multipart_upload` receives it
(`.ok (some receipts)`). -/
def s3Close (st : S3MultipartWriterState) (outcomes : List UploadOutcome) :
    Except Nat (Option (List PartReceipt)) :=
  if st.closed then .ok none
  else
    match s3Wait outcomes with
    | .error e => .error e
    | .ok () => .ok (some (sortReceipts (st.parts ++ okReceipts outcomes)))

lemma sortReceipts_perm (ps : List PartReceipt) : (sortReceipts ps).Perm ps :=
  List.mergeSort_perm ps _

lemma sortReceipts_pairwise_le (ps : List PartReceipt) :
    (sortReceipts ps).Pairwise (fun a b => a.PartNumber ≤ b.PartNumber) := by
  have h : (sortReceipts ps).Pairwise
      (fun a b : PartReceipt => (decide (a.PartNumber ≤ b.PartNumber)) = true) := by
    apply List.sorted_mergeSort
    · intro a b c hab hbc
      simp only [decide_eq_true_eq] at *
      omega
    · intro a b
      simp only [Bool.or_eq_true, decide_eq_true_eq]
      omega
  exact h.imp (by intro a b hab; simpa using hab)

lemma sortReceipts_pairwise_lt (ps : List PartReceipt)
    (h : (ps.map PartReceipt.PartNumber).Nodup) :
    (sortReceipts ps).Pairwise (fun a b => a.PartNumber < b.PartNumber) := by
  have hndp : ps.Pairwise (fun a b : PartReceipt => a.PartNumber ≠ b.PartNumber) :=
    List.pairwise_map.mp h
  have hnd' : (sortReceipts ps).Pairwise
      (fun a b : PartReceipt => a.PartNumber ≠ b.PartNumber) :=
    (List.Perm.pairwise_iff (fun hne => Ne.symm hne) (sortReceipts_perm ps)).mpr hndp
  exact ((sortReceipts_pairwise_le ps).and hnd').imp
    (fun hq => Nat.lt_of_le_of_ne hq.1 hq.2)

/-- C7. For any set of parts submitted in any order (reverse part-number
order included), the receipt list `close()` hands to
`complete_multipart_upload` is strictly ascending in part number, is exactly
the multiset of receipts of the submitted parts, and every receipt carries
the 1-based wire number `Part.number + 1`. -/
theorem close_receipts_sorted (etagOf : Part → Nat) (submitted : List Part)
    (hnd : (submitted.map Part.number).Nodup) (l : List PartReceipt)
    (hrun : s3Close ⟨submitted.map (s3PutPart etagOf), [], false⟩ [] =
      .ok (some l)) :
    l.Pairwise (fun a b => a.PartNumber < b.PartNumber) ∧
    l.Perm (submitted.map (s3PutPart etagOf)) ∧
    ∀ p : Part, (s3PutPart etagOf p).PartNumber = p.number + 1 := by
  have hl : l = sortReceipts (submitted.map (s3PutPart etagOf) ++ okReceipts []) := by
    unfold s3Close at hrun
    simp only [if_neg Bool.false_ne_true] at hrun
    have : s3Wait [] = .ok () := rfl
    rw [this] at hrun
    injection hrun with hrun'
    injection hrun' with hrun''
    exact hrun''.symm
  have happ : submitted.map (s3PutPart etagOf) ++ okReceipts [] =
      submitted.map (s3PutPart etagOf) := List.append_nil _
  rw [hl, happ]
  have hnums : (submitted.map (s3PutPart etagOf)).map PartReceipt.PartNumber =
      (submitted.map Part.number).map (fun n => n + 1) := by
    rw [List.map_map, List.map_map]
    rfl
  have hndr : ((submitted.map (s3PutPart etagOf)).map PartReceipt.PartNumber).Nodup := by
    rw [hnums]
    exact hnd.map (fun a b hab => by omega)
  exact ⟨sortReceipts_pairwise_lt _ hndr, sortReceipts_perm _, fun p => rfl⟩

/-- Witness for `close_receipts_sorted`: three empty parts submitted in
strictly reverse part-number order still finalize sorted ascending. -/
theorem close_receipts_sorted_witness :
    (sortReceipts (([⟨2, []⟩, ⟨1, []⟩, ⟨0, []⟩] : List Part).map
        (s3PutPart (fun _ => 0)) ++ okReceipts [])).Pairwise
      (fun a b => a.PartNumber < b.PartNumber) :=
  (close_receipts_sorted (fun _ => 0) [⟨2, []⟩, ⟨1, []⟩, ⟨0, []⟩] (by decide)
    _ rfl).1

lemma s3Wait_first_failure :
    ∀ (pre : List UploadOutcome) (e : Nat) (rest : List UploadOutcome),
      (∀ o ∈ pre, ∃ r, o = UploadOutcome.done r) →
      s3Wait (pre ++ UploadOutcome.failed e :: rest) = .error e := by
  intro pre
  induction pre with
  | nil => intro e rest _; rfl
  | cons o pre ih =>
    intro e rest hpre
    obtain ⟨r, hr⟩ := hpre o (by simp)
    subst hr
    show s3Wait (pre ++ UploadOutcome.failed e :: rest) = .error e
    exact ih e rest (fun o ho => hpre o (by simp [ho]))

/-- C8. On a writer that is not yet closed: if some outstanding upload task
failed, `close()` re-raises the first failure in completion order and the
finalize call `complete_multipart_upload` is never made; and whenever
`close()` does finalize, the receipt list is a permutation of all receipts —
those already collected plus one per remaining task — so if the transfer's
parts `[0, part_count)` were all submitted (wire numbers `1..part_count`),
the finalized receipt set covers exactly `{1, ..., part_count}`, gap-free. -/
theorem close_failure_no_finalize (st : S3MultipartWriterState)
    (outcomes : List UploadOutcome) (hopen : st.closed = false) :
    (∀ pre e rest, outcomes = pre ++ UploadOutcome.failed e :: rest →
      (∀ o ∈ pre, ∃ r, o = UploadOutcome.done r) →
      s3Close st outcomes = .error e) ∧
    (∀ l, s3Close st outcomes = .ok (some l) →
      l.Perm (st.parts ++ okReceipts outcomes) ∧
      ∀ pc, (st.parts ++ okReceipts outcomes).map PartReceipt.PartNumber =
          (List.range pc).map (fun n => n + 1) →
        ((l.map PartReceipt.PartNumber).Perm
          ((List.range pc).map (fun n => n + 1)))) := by
  constructor
  · intro pre e rest houtcomes hpre
    unfold s3Close
    rw [hopen]
    simp only [Bool.false_eq_true, if_false]
    rw [houtcomes, s3Wait_first_failure pre e rest hpre]
  · intro l hrun
    unfold s3Close at hrun
    rw [hopen] at hrun
    simp only [Bool.false_eq_true, if_false] at hrun
    have hperm : l.Perm (st.parts ++ okReceipts outcomes) := by
      cases hwait : s3Wait outcomes with
      | error e => rw [hwait] at hrun; cases hrun
      | ok u =>
        cases u
        rw [hwait] at hrun
        injection hrun with hrun'
        injection hrun' with hrun''
        rw [← hrun'']
        exact sortReceipts_perm _
    refine ⟨hperm, fun pc hcover => ?_⟩
    rw [← hcover]
    exact hperm.map _

/-- Witness for `close_failure_no_finalize`: a failed upload's exception is
re-raised by `close()` with no finalize call. -/
theorem close_failure_no_finalize_witness :
    s3Close ⟨[], [], false⟩ [UploadOutcome.failed 7] = .error 7 :=
  (close_failure_no_finalize ⟨[], [], false⟩ [UploadOutcome.failed 7] rfl).1
    [] 7 [] rfl (by simp)

end Ssds
